import Mathlib

/-!
Verification of the group-path-based RBAC layer of this repository.

The Python sources are embedded shallowly:
* Python `str` values are Lean `String`s; the string operations the code
  relies on (`str.lower`, `str.strip`, `str.split("/")`) are defined here
  over `String.data` so that their behaviour is fully transparent to proofs.
* Pure helpers from `utils/helpers.py` become Lean functions.
* The external Keycloak identity provider is modelled by explicit read-model
  structures (`KcGroup`, `KC`) and, for the lifecycle operations, by an
  explicit state machine (`KcState`).
* `fastapi.HTTPException` is a status/detail record; raising it is modelled
  with `Except`.  Quoting punctuation inside detail strings is elided.
-/
set_option maxRecDepth 4000

namespace NewKeycloak

/-! ### Python string primitives -/
/-- Python `str.lower` (ASCII letters, as used by this code base). -/
def pyLower (s : String) : String := String.mk (s.data.map Char.toLower)

/-- Characters removed by Python `str.strip`. -/
def stripData (l : List Char) : List Char :=
  ((l.dropWhile Char.isWhitespace).reverse.dropWhile Char.isWhitespace).reverse

/-- Python `str.strip`. -/
def pyStrip (s : String) : String := String.mk (stripData s.data)

/-- Embedding of `normalize_kc_name` from `utils/helpers.py`: trim then lowercase. -/
def normalize_kc_name (s : String) : String := pyLower (pyStrip s)

/-- Python `str.split(sep)` for a one-character separator, on char lists. -/
def splitChar (c : Char) : List Char → List (List Char)
  | [] => [[]]
  | x :: xs =>
    match splitChar c xs with
    | [] => [[]]
    | h :: t => if x = c then [] :: h :: t else (x :: h) :: t

/-- Python `path.split("/")`. -/
def pySplitSlash (s : String) : List String := (splitChar '/' s.data).map String.mk

/-- Embedding of `[x for x in p.split("/") if x]` — segments of a path with empty parts
dropped, no lowercasing (as used in `is_user_in_scope`). -/
def rawSegs (p : String) : List String := (pySplitSlash p).filter (fun x => x ≠ "")

/-- Embedding of `[p for p in g.lower().split("/") if p]` — the segment view used by the
parse functions in `utils/helpers.py`. -/
def segs (g : String) : List String := rawSegs (pyLower g)

/-! ### Clean segments and canonical path construction -/
/-- A string that can stand as one segment of a normalized group path:
non-empty, slash-free and already lowercase. -/
def CleanSeg (s : String) : Prop :=
  s ≠ "" ∧ '/' ∉ s.data ∧ s.data.map Char.toLower = s.data

/-- Embedding of `"/".join`-style concatenation used to rebuild paths from segments. -/
def joinSlash : List String → String
  | [] => ""
  | [p] => p
  | p :: ps => p ++ "/" ++ joinSlash ps

/-- Embedding of `f"/{a}/{b}/..."` — the canonical slash-path of a segment list. -/
def pathOf (parts : List String) : String := "/" ++ joinSlash parts

/-! ### `utils/helpers.py`: validation and scope parsing -/
/-- Embedding of `fastapi.HTTPException` as raised by the code base: status plus detail. -/
structure HTTPException where
  status : Nat
  detail : String

deriving DecidableEq, Repr

deriving instance DecidableEq for Except

/-- Embedding of `RESERVED_GROUP_NAMES` from `utils/helpers.py`. -/
def RESERVED_GROUP_NAMES : List String :=
  ["admin", "super-admin", "user", "manager", "member",
   "admins", "users", "managers", "members", "role", "roles"]

/-- Embedding of `validate_group_name_not_reserved(name, kind)`: normalize, reject empty
(400 invalid-name) and reserved (400 reserved-name) values. -/
def validate_group_name_not_reserved (name kind : String) : Except HTTPException String :=
  let n := normalize_kc_name name
  if n = "" then .error ⟨400, kind ++ " name is required"⟩
  else if n ∈ RESERVED_GROUP_NAMES then
    .error ⟨400, kind ++ " name " ++ name ++ " is reserved and cannot be used"⟩
  else .ok n

/-- Generic loop body of the parse functions: each group path contributes at
most one element to the output set. -/
def collectSome {α : Type} [DecidableEq α] (f : String → Option α)
    (groups : List String) : Finset α :=
  groups.foldl (fun out g => match f g with | some a => insert a out | none => out) ∅

/-- Contribution of one path in `parse_admin_orgs`: exactly two non-empty
lowered segments, the second being `admin`. -/
def adminOrgOf (g : String) : Option String :=
  match segs g with
  | [a, b] => if b = "admin" then some a else none
  | _ => none

/-- Contribution of one path in `parse_managed_teams`. -/
def managedTeamOf (g : String) : Option (String × String) :=
  match segs g with
  | [a, b, c] => if c = "manager" then some (a, b) else none
  | _ => none

/-- Contribution of one path in `parse_member_teams`. -/
def memberTeamOf (g : String) : Option (String × String) :=
  match segs g with
  | [a, b, c] => if c = "member" then some (a, b) else none
  | _ => none

/-- Contribution of one path in `parse_user_orgs`. -/
def userOrgOf (g : String) : Option String :=
  match segs g with
  | a :: _ :: _ => some a
  | _ => none

/-- Embedding of `parse_admin_orgs` from `utils/helpers.py`. -/
def parse_admin_orgs (groups : List String) : Finset String :=
  collectSome adminOrgOf groups

/-- Embedding of `parse_managed_teams` from `utils/helpers.py`. -/
def parse_managed_teams (groups : List String) : Finset (String × String) :=
  collectSome managedTeamOf groups

/-- Embedding of `parse_member_teams` from `utils/helpers.py`. -/
def parse_member_teams (groups : List String) : Finset (String × String) :=
  collectSome memberTeamOf groups

/-- Embedding of `parse_user_orgs` from `utils/helpers.py`. -/
def parse_user_orgs (groups : List String) : Finset String :=
  (collectSome userOrgOf groups).erase "super-admin"

/-! ### `utils/helpers.py`: users and recursive membership -/
/-- A Keycloak user record as the services see it: the `id` field may be
missing (`none`) or empty; `tag` stands for the remaining payload fields;
`groups` is the field written by `enrich_user_with_groups`. -/
structure KcUser where
  uid : Option String
  tag : Nat
  groups : List String

deriving DecidableEq, Repr

/-- Truthiness of `u.get("id")` in Python: present and non-empty. -/
def uidOk (u : KcUser) : Bool :=
  match u.uid with
  | some s => s ≠ ""
  | none => false

/-- The loop of `unique_users`, carrying the `seen` set of ids. -/
def uniqueUsersGo (seen : List String) : List KcUser → List KcUser
  | [] => []
  | u :: us =>
    match u.uid with
    | some s => if s ≠ "" ∧ s ∉ seen then u :: uniqueUsersGo (s :: seen) us
                else uniqueUsersGo seen us
    | none => uniqueUsersGo seen us

/-- Embedding of `unique_users` from `utils/helpers.py`: drop id-less records and keep the
first record of each id. -/
def unique_users (users : List KcUser) : List KcUser := uniqueUsersGo [] users

/-- A Keycloak group as seen by `list_members_recursive`: its id, the result
of `get_group_members` and the result of `get_group(...)["subGroups"]`.  A
`false` flag models a `KeycloakError` raised by the corresponding fetch (the
payload list is then ignored by the code). -/
inductive KcGroup where
  | node (gid : String) (membersOk : Bool) (members : List KcUser)
         (subOk : Bool) (sub : List KcGroup)

deriving Repr

/-- Embedding of `list_members_recursive` from `utils/helpers.py`: direct members (empty
on fetch error) appended with the recursive members of each subgroup (none on
fetch error), deduplicated at every level. -/
def list_members_recursive : KcGroup → List KcUser
  | .node _ mOk ms sOk subs =>
    let direct := if mOk then ms else []
    let rest := if sOk then (subs.attach.map (fun x => list_members_recursive x.1)).flatten
                else []
    unique_users (direct ++ rest)
decreasing_by
  have := List.sizeOf_lt_of_mem x.2
  simp only [KcGroup.node.sizeOf_spec]
  omega

/-- Read-side model of the Keycloak admin client used by `UserService`:
path lookup (covering both `null` and `KeycloakError` with `none`), the
global user list, per-user group paths and user lookup by id. -/
structure KC where
  byPath : String → Option KcGroup
  allUsers : List KcUser
  userGroups : String → Except Unit (List String)
  userById : String → Except Unit KcUser

/-- Embedding of `get_group_id_by_path`: normalize the path, query, `None` on error.  The
group record itself stands in for its id. -/
def get_group_id_by_path (kc : KC) (path : String) : Option KcGroup :=
  kc.byPath (pyLower (pyStrip path))

/-- Embedding of `kc.get_user_groups(user.get("id"))` — calling with a missing id fails. -/
def userGroupsOf (kc : KC) (oid : Option String) : Except Unit (List String) :=
  match oid with
  | some i => kc.userGroups i
  | none => .error ()

/-- Embedding of `UserService.enrich_user_with_groups`: attach the user's group paths,
empty on fetch failure, dropping falsy paths. -/
def enrich_user_with_groups (kc : KC) (u : KcUser) : KcUser :=
  match userGroupsOf kc u.uid with
  | .ok l => { u with groups := l.filter (fun p => p ≠ "") }
  | .error _ => { u with groups := [] }

/-- The per-path test inside `is_user_in_scope` (note: no lowercasing of the
target's paths happens there). -/
def pathInScope (scope_orgs : Finset String) (scope_teams : Finset (String × String))
    (p : String) : Bool :=
  match rawSegs p with
  | [] => false
  | org :: rest =>
    decide (org ∈ scope_orgs) ||
      (match rest with
       | t :: _ => decide ((org, t) ∈ scope_teams)
       | [] => false)

/-- Embedding of `is_user_in_scope` from `utils/helpers.py`. -/
def is_user_in_scope (kc : KC) (target_user_id : String)
    (scope_orgs : Finset String) (scope_teams : Finset (String × String)) : Bool :=
  if scope_orgs = ∅ ∧ scope_teams = ∅ then false
  else
    match kc.userGroups target_user_id with
    | .error _ => false
    | .ok t_groups => t_groups.any (pathInScope scope_orgs scope_teams)

/-! ### `core/security.py`: authorization gate -/
/-- Embedding of `normalize_kc_name(x) or x` — Python falls back to the raw value when the
normalized one is falsy (empty). -/
def normalizeOr (s : String) : String :=
  if normalize_kc_name s ≠ "" then normalize_kc_name s else s

/-- The boolean at the heart of `check_super_admin` and of the inline
super-admin tests: the literal lowered path `/super-admin` is present. -/
def is_super_admin (groups : List String) : Bool :=
  "/super-admin" ∈ groups.map pyLower

/-- Embedding of `check_super_admin` from `core/security.py`. -/
def check_super_admin (groups : List String) : Except HTTPException Unit :=
  if "/super-admin" ∈ groups.map pyLower then .ok ()
  else .error ⟨403, "Super Admin privileges required"⟩

/-- Embedding of `TeamManagerChecker.__call__` from `core/security.py`: allow on
super-admin, org-admin or team-manager literal paths, else 403 naming the
team. -/
def teamManagerChecker (org_name team_name : String) (groups : List String) :
    Except HTTPException Unit :=
  let org := normalizeOr org_name
  let team := normalizeOr team_name
  let gs := groups.map pyLower
  if "/super-admin" ∈ gs ∨ ("/" ++ org ++ "/admin") ∈ gs then .ok ()
  else if ("/" ++ org ++ "/" ++ team ++ "/manager") ∈ gs then .ok ()
  else .error ⟨403, "Not a manager of team " ++ team⟩

/-! ### `services/user_service.py` -/
/-- Ascending insertion of one element. -/
def insertSorted {α : Type} (le : α → α → Bool) (a : α) : List α → List α
  | [] => [a]
  | b :: bs => if le a b then a :: b :: bs else b :: insertSorted le a bs

/-- Structurally recursive ascending sort (Python `sorted` on distinct
elements). -/
def insertionSort {α : Type} (le : α → α → Bool) : List α → List α
  | [] => []
  | a :: as => insertSorted le a (insertionSort le as)

/-- Python tuple comparison on `(org, team)` pairs. -/
def pairLe (a b : String × String) : Bool :=
  decide (a.1 < b.1) || (decide (a.1 = b.1) && decide (a.2 ≤ b.2))

/-- Embedding of `sorted(parse_admin_orgs(groups))`: the ascending enumeration of the set
of administered orgs. -/
def sortedAdminOrgs (groups : List String) : List String :=
  insertionSort (fun a b => decide (a ≤ b)) (groups.filterMap adminOrgOf).dedup

/-- Embedding of `sorted(parse_managed_teams(groups))`: the ascending enumeration of the
set of managed teams. -/
def sortedManagedTeams (groups : List String) : List (String × String) :=
  insertionSort pairLe (groups.filterMap managedTeamOf).dedup

/-- Truthiness of an `Optional[str]` parameter. -/
def optGiven (o : Option String) : Bool :=
  match o with
  | none => false
  | some s => s ≠ ""

/-- Embedding of `d if cond else ""` helper: the raw value of an option (only read on
branches where it is known to be given). -/
def optVal (o : Option String) : String := o.getD ""

/-- Members of the group at a path, as collected by the no-scope branches of
`list_users` (`if gid: all_users.extend(list_members_recursive(kc, gid))`). -/
def orgMembersAt (kc : KC) (path : String) : List KcUser :=
  match get_group_id_by_path kc path with
  | some g => list_members_recursive g
  | none => []

/-- Embedding of `UserService.list_users` from `services/user_service.py`. -/
def list_users (kc : KC) (org_name team_name : Option String) (groups0 : List String) :
    Except HTTPException (List KcUser) :=
  let groups := groups0.map pyLower
  let is_super := "/super-admin" ∈ groups
  let admin_orgs := parse_admin_orgs groups
  let managed_teams := parse_managed_teams groups
  if optGiven team_name ∧ ¬ optGiven org_name then
    .error ⟨400, "team_name requires org_name"⟩
  else if optGiven org_name ∧ optGiven team_name then
    let org := optVal org_name
    let team := optVal team_name
    if ¬ is_super ∧ (org, team) ∉ managed_teams ∧ org ∉ admin_orgs then
      .error ⟨403, "Not allowed to list users for this team"⟩
    else
      match get_group_id_by_path kc ("/" ++ org ++ "/" ++ team) with
      | none => .error ⟨404, "Team not found"⟩
      | some g => .ok ((list_members_recursive g).map (enrich_user_with_groups kc))
  else if optGiven org_name then
    let org := optVal org_name
    if ¬ is_super ∧ org ∉ admin_orgs then
      .error ⟨403, "Not allowed to list users for this org"⟩
    else
      match get_group_id_by_path kc ("/" ++ org) with
      | none => .error ⟨404, "Organization not found"⟩
      | some g => .ok ((list_members_recursive g).map (enrich_user_with_groups kc))
  else if is_super then
    .ok (kc.allUsers.map (enrich_user_with_groups kc))
  else if admin_orgs ≠ ∅ then
    let all := ((sortedAdminOrgs groups).map
      (fun org => orgMembersAt kc ("/" ++ org))).flatten
    .ok ((unique_users all).map (enrich_user_with_groups kc))
  else if managed_teams ≠ ∅ then
    let all := ((sortedManagedTeams groups).map
      (fun ot => orgMembersAt kc ("/" ++ ot.1 ++ "/" ++ ot.2))).flatten
    .ok ((unique_users all).map (enrich_user_with_groups kc))
  else
    .error ⟨403, "Not allowed to list users"⟩

/-- Embedding of `UserService.get_user` from `services/user_service.py` (note: the actor's
groups are used un-lowercased there). -/
def get_user (kc : KC) (user_id : String) (groups : List String) :
    Except HTTPException KcUser :=
  if "/super-admin" ∈ groups then
    match kc.userById user_id with
    | .ok u => .ok (enrich_user_with_groups kc u)
    | .error _ => .error ⟨404, "User not found"⟩
  else
    let scope_orgs := parse_admin_orgs groups
    let scope_teams := parse_managed_teams groups
    if ¬ is_user_in_scope kc user_id scope_orgs scope_teams then
      .error ⟨403, "Not allowed to view this user"⟩
    else
      match kc.userById user_id with
      | .ok u => .ok (enrich_user_with_groups kc u)
      | .error _ => .error ⟨404, "User not found"⟩

/-! ### `services/org_service.py`: organization lifecycle -/
/-- A top-level Keycloak group with its child role groups, write-side model.
Children are `(id, name)` pairs. -/
structure OrgRec where
  gid : Nat
  name : String
  children : List (Nat × String)

deriving DecidableEq, Repr

/-- Write-side Keycloak state: top-level groups, membership edges
`(user_id, group_id)`, and an id counter. -/
structure KcState where
  orgs : List OrgRec
  memberships : List (String × Nat)
  nextId : Nat

deriving DecidableEq, Repr

/-- Embedding of `kc.create_group({"name": n})`: conflict when a top-level group of that
name exists. -/
def kc_create_root (st : KcState) (name : String) : Except Unit (Nat × KcState) :=
  if st.orgs.any (fun o => o.name = name) then .error ()
  else .ok (st.nextId,
    { orgs := st.orgs ++ [⟨st.nextId, name, []⟩],
      memberships := st.memberships,
      nextId := st.nextId + 1 })

/-- Embedding of `kc.create_group({"name": n}, parent=pid)`: conflict when the parent is
missing or already has a child of that name. -/
def kc_create_child (st : KcState) (parent : Nat) (name : String) :
    Except Unit (Nat × KcState) :=
  match st.orgs.find? (fun o => o.gid = parent) with
  | none => .error ()
  | some o =>
    if o.children.any (fun c => c.2 = name) then .error ()
    else .ok (st.nextId,
      { orgs := st.orgs.map (fun p =>
          if p.gid = parent then
            { p with children := p.children ++ [(st.nextId, name)] }
          else p),
        memberships := st.memberships,
        nextId := st.nextId + 1 })

/-- Embedding of `kc.get_group(gid)` on the write-side state. -/
def kc_get_group (st : KcState) (gid : Nat) : Option OrgRec :=
  st.orgs.find? (fun o => o.gid = gid)

/-- Embedding of `get_group_id_by_path` against the write-side state: normalize the query
and match it against the stored paths `/name` and `/name/child`. -/
def st_group_id_by_path (st : KcState) (path : String) : Option Nat :=
  let p := pyLower (pyStrip path)
  match st.orgs.find? (fun r => "/" ++ r.name = p) with
  | some r => some r.gid
  | none =>
    (st.orgs.filterMap (fun r =>
      (r.children.find? (fun c => "/" ++ r.name ++ "/" ++ c.2 = p)).map Prod.fst)).head?

/-- Embedding of `OrgService.create_organization` from `services/org_service.py`, with the
external calls threaded through `KcState`.  `userIdOf` models
`kc_admin.get_user_id`.  The failing call leaves the state reached so far. -/
def create_organization (st : KcState) (name : String) (admin_username : Option String)
    (userIdOf : String → Option String) : KcState × Except HTTPException String :=
  match validate_group_name_not_reserved name "Organization" with
  | .error e => (st, .error e)
  | .ok org_name =>
    let adminU : Option String :=
      match admin_username with
      | some s => if s ≠ "" then some (normalize_kc_name s) else none
      | none => none
    match kc_create_root st org_name with
    | .error _ => (st, .error ⟨409, "Organization already exists"⟩)
    | .ok (org_id, st1) =>
      match kc_create_child st1 org_id "admin" with
      | .error _ => (st1, .error ⟨500, "admin subgroup creation failed"⟩)
      | .ok (_, st2) =>
        match kc_create_child st2 org_id "user" with
        | .error _ => (st2, .error ⟨500, "user subgroup creation failed"⟩)
        | .ok (_, st3) =>
          match adminU with
          | some au =>
            if au ≠ "" then
              match userIdOf au with
              | none => (st3, .error ⟨404, "User " ++ au ++ " not found"⟩)
              | some uid =>
                match kc_get_group st3 org_id with
                | none =>
                  (st3, .ok ("Org " ++ org_name ++ " created (No admin assigned)."))
                | some org_details =>
                  match org_details.children.find? (fun c => c.2 = "admin") with
                  | some ag =>
                    ({ st3 with memberships := st3.memberships ++ [(uid, ag.1)] },
                     .ok ("Org " ++ org_name ++ " created, user " ++ au ++
                       " assigned as Admin."))
                  | none =>
                    (st3, .ok ("Org " ++ org_name ++ " created (No admin assigned)."))
            else (st3, .ok ("Org " ++ org_name ++ " created (No admin assigned)."))
          | none => (st3, .ok ("Org " ++ org_name ++ " created (No admin assigned)."))

/-- A provider state with no groups and failing user reads, for witnesses. -/
def kcEmpty : KC where
  byPath := fun _ => none
  allUsers := []
  userGroups := fun _ => .error ()
  userById := fun _ => .error ()

/-! ### Claim C4: case handling of the parse functions -/
/-- Enumeration (first-occurrence order) of `parse_admin_orgs`. -/
def adminOrgsList (gs : List String) : List String :=
  (gs.filterMap adminOrgOf).dedup

/-- Enumeration (first-occurrence order) of `parse_managed_teams`. -/
def managedTeamsList (gs : List String) : List (String × String) :=
  (gs.filterMap managedTeamOf).dedup

/-- Enumeration (first-occurrence order) of `parse_member_teams`. -/
def memberTeamsList (gs : List String) : List (String × String) :=
  (gs.filterMap memberTeamOf).dedup

/-! ### Claim C1: the TeamManager gate -/
/-- A group path as the identity provider stores it in this design: a
leading slash followed by non-empty, slash-free, lowercase segments. -/
def Canonical (g : String) : Prop :=
  ∃ parts : List String, parts ≠ [] ∧ (∀ p ∈ parts, CleanSeg p) ∧ g = pathOf parts

/-! ### Claim C7: organization creation -/
/-- Initial empty provider state. -/
def st0 : KcState := ⟨[], [], 0⟩

/-- State after a successful `create_organization(name="finance")` on `st0`. -/
def stFinance : KcState :=
  ⟨[⟨0, "finance", [(1, "admin"), (2, "user")]⟩], [], 3⟩

/-- State after `create_organization(name="ops", admin_username="Bob")` on
`st0` with `userTableW`. -/
def stOps : KcState :=
  ⟨[⟨0, "ops", [(1, "admin"), (2, "user")]⟩], [("bob-id", 1)], 3⟩

/-- A username resolver knowing only `bob`. -/
def userTableW : String → Option String :=
  fun u => if u = "bob" then some "bob-id" else none

/-! ### Basic lemmas about the primitives -/
theorem string_mk_data (s : String) : String.mk s.data = s := rfl

theorem char_toNat_ofNat_valid (n : Nat) (h : n.isValidChar) :
    (Char.ofNat n).toNat = n := by
  rw [Char.ofNat, dif_pos h]
  rfl

theorem char_toLower_eq_ite (c : Char) :
    c.toLower = if c.toNat ≥ 65 ∧ c.toNat ≤ 90 then Char.ofNat (c.toNat + 32) else c := rfl

theorem char_toLower_toLower (c : Char) : (c.toLower).toLower = c.toLower := by
  by_cases h : c.toNat ≥ 65 ∧ c.toNat ≤ 90
  · have hv : Nat.isValidChar (c.toNat + 32) := Or.inl (by omega)
    have ht : (Char.ofNat (c.toNat + 32)).toNat = c.toNat + 32 :=
      char_toNat_ofNat_valid _ hv
    rw [char_toLower_eq_ite c, if_pos h, char_toLower_eq_ite, ht, if_neg (by omega)]
  · rw [char_toLower_eq_ite c, if_neg h, char_toLower_eq_ite c, if_neg h]

theorem char_toLower_eq_slash (c : Char) : c.toLower = '/' ↔ c = '/' := by
  constructor
  · intro h
    by_cases hc : c.toNat ≥ 65 ∧ c.toNat ≤ 90
    · exfalso
      have ht : (Char.ofNat (c.toNat + 32)).toNat = c.toNat + 32 :=
        char_toNat_ofNat_valid _ (Or.inl (by omega))
      rw [char_toLower_eq_ite c, if_pos hc] at h
      have h47 : (Char.ofNat (c.toNat + 32)).toNat = ('/' : Char).toNat := by rw [h]
      rw [ht] at h47
      have : ('/' : Char).toNat = 47 := rfl
      omega
    · rw [char_toLower_eq_ite c, if_neg hc] at h
      exact h
  · intro h; subst h; decide

theorem pyLower_pyLower (s : String) : pyLower (pyLower s) = pyLower s := by
  unfold pyLower
  refine congrArg String.mk ?_
  simp only [List.map_map]
  simp [Function.comp_def, char_toLower_toLower]

/-- Embedding of `splitChar` always returns at least one chunk. -/
theorem splitChar_ne_nil (c : Char) (l : List Char) : splitChar c l ≠ [] := by
  induction l with
  | nil => simp [splitChar]
  | cons x xs ih =>
    simp only [splitChar]
    rcases h : splitChar c xs with _ | ⟨h', t⟩
    · exact absurd h ih
    · by_cases hx : x = c <;> simp [hx]

/-- One-step equation for `splitChar` on a cons cell, with the recursive
result already named. -/
theorem splitChar_cons (c x : Char) (xs h' : List Char) (t : List (List Char))
    (h : splitChar c xs = h' :: t) :
    splitChar c (x :: xs) = if x = c then [] :: h' :: t else (x :: h') :: t := by
  simp only [splitChar]
  rw [h]

theorem splitChar_cons_sep (c : Char) (l : List Char) :
    splitChar c (c :: l) = [] :: splitChar c l := by
  rcases h : splitChar c l with _ | ⟨h', t⟩
  · exact absurd h (splitChar_ne_nil c l)
  · rw [splitChar_cons c c l h' t h, if_pos rfl]

/-- Splitting a list that starts with a separator-free prefix followed by the
separator yields that prefix as the first chunk. -/
theorem splitChar_append_sep (c : Char) (xs ys : List Char) (hx : c ∉ xs) :
    splitChar c (xs ++ c :: ys) = xs :: splitChar c ys := by
  induction xs with
  | nil => simpa using splitChar_cons_sep c ys
  | cons a as ih =>
    have ha : a ≠ c := fun h => hx (by simp [h])
    have has : c ∉ as := fun h => hx (by simp [h])
    have hrec := ih has
    rw [List.cons_append, splitChar_cons c a (as ++ c :: ys) as (splitChar c ys) hrec,
      if_neg ha]

/-- Splitting a separator-free list yields a single chunk. -/
theorem splitChar_no_sep (c : Char) (xs : List Char) (hx : c ∉ xs) :
    splitChar c xs = [xs] := by
  induction xs with
  | nil => rfl
  | cons a as ih =>
    have ha : a ≠ c := fun h => hx (by simp [h])
    have has : c ∉ as := fun h => hx (by simp [h])
    rw [splitChar_cons c a as as [] (ih has), if_neg ha]

/-- Every chunk produced by `splitChar` is free of the separator. -/
theorem splitChar_chunk_no_sep (c : Char) (l : List Char) :
    ∀ ch ∈ splitChar c l, c ∉ ch := by
  induction l with
  | nil => intro ch hch; simp [splitChar] at hch; simp [hch]
  | cons x xs ih =>
    intro ch hch
    rcases h : splitChar c xs with _ | ⟨h', t⟩
    · exact absurd h (splitChar_ne_nil c xs)
    · rw [splitChar_cons c x xs h' t h] at hch
      by_cases hx : x = c
      · rw [if_pos hx] at hch
        rcases List.mem_cons.mp hch with rfl | hch2
        · simp
        · exact ih ch (h ▸ hch2)
      · rw [if_neg hx] at hch
        rcases List.mem_cons.mp hch with rfl | hch2
        · intro hmem
          rcases List.mem_cons.mp hmem with rfl | hmem
          · exact hx rfl
          · exact ih h' (h ▸ List.mem_cons_self h' t) hmem
        · exact ih ch (h ▸ List.mem_cons_of_mem h' hch2)

/-- Embedding of `splitChar` commutes with mapping a function that preserves
separator-hood in both directions. -/
theorem splitChar_map (c : Char) (f : Char → Char) (hf : ∀ x, f x = c ↔ x = c)
    (l : List Char) :
    splitChar c (l.map f) = (splitChar c l).map (List.map f) := by
  induction l with
  | nil => rfl
  | cons x xs ih =>
    rcases h : splitChar c xs with _ | ⟨h', t⟩
    · exact absurd h (splitChar_ne_nil c xs)
    · have hm : splitChar c (xs.map f) = (h'.map f) :: t.map (List.map f) := by
        rw [ih, h, List.map_cons]
      rw [List.map_cons, splitChar_cons c (f x) (xs.map f) _ _ hm,
        splitChar_cons c x xs h' t h]
      by_cases hx : x = c
      · have hfx : f x = c := (hf x).mpr hx
        rw [if_pos hx, if_pos hfx]
        simp
      · have hfx : f x ≠ c := fun hc => hx ((hf x).mp hc)
        rw [if_neg hx, if_neg hfx]
        simp

theorem segs_pyLower (g : String) : segs (pyLower g) = segs g := by
  unfold segs
  rw [pyLower_pyLower]

theorem pyLower_of_lowerFixed (s : String) (h : s.data.map Char.toLower = s.data) :
    pyLower s = s := by
  unfold pyLower
  rw [h]

theorem joinSlash_data_no_join (parts : List String) (hne : parts ≠ [])
    (hp : ∀ p ∈ parts, '/' ∉ p.data) :
    splitChar '/' (joinSlash parts).data = parts.map String.data := by
  induction parts with
  | nil => exact absurd rfl hne
  | cons p ps ih =>
    match ps with
    | [] =>
      show splitChar '/' p.data = [p.data]
      exact splitChar_no_sep '/' p.data (hp p (List.mem_cons_self p []))
    | q :: rest =>
      have hd : (joinSlash (p :: q :: rest)).data =
          p.data ++ '/' :: (joinSlash (q :: rest)).data := by
        show (p ++ "/" ++ joinSlash (q :: rest)).data = _
        rw [String.data_append, String.data_append, List.append_assoc]
        rfl
      rw [hd, splitChar_append_sep '/' p.data _ (hp p (List.mem_cons_self p _)),
        ih (by simp) (fun x hx => hp x (List.mem_cons_of_mem p hx))]
      rfl

theorem joinSlash_lowerFixed (parts : List String)
    (hp : ∀ p ∈ parts, p.data.map Char.toLower = p.data) :
    (joinSlash parts).data.map Char.toLower = (joinSlash parts).data := by
  induction parts with
  | nil => rfl
  | cons p ps ih =>
    match ps with
    | [] => exact hp p (List.mem_cons_self p [])
    | q :: rest =>
      have hd : (joinSlash (p :: q :: rest)).data =
          p.data ++ '/' :: (joinSlash (q :: rest)).data := by
        show (p ++ "/" ++ joinSlash (q :: rest)).data = _
        rw [String.data_append, String.data_append, List.append_assoc]
        rfl
      rw [hd, List.map_append, hp p (List.mem_cons_self p _), List.map_cons]
      rw [show Char.toLower '/' = '/' from rfl,
        ih (fun x hx => hp x (List.mem_cons_of_mem p hx))]

/-- A canonically constructed path is already all-lowercase. -/
theorem pathOf_lowerFixed (parts : List String)
    (hp : ∀ p ∈ parts, CleanSeg p) :
    (pathOf parts).data.map Char.toLower = (pathOf parts).data := by
  show (("/" : String) ++ joinSlash parts).data.map Char.toLower = _
  rw [String.data_append, List.map_append]
  rw [joinSlash_lowerFixed parts (fun p h => (hp p h).2.2)]
  rfl

/-- Parsing a canonically constructed path recovers exactly its segments. -/
theorem segs_pathOf (parts : List String) (hne : parts ≠ [])
    (hp : ∀ p ∈ parts, CleanSeg p) :
    segs (pathOf parts) = parts := by
  have hlow : (pathOf parts).data.map Char.toLower = (pathOf parts).data :=
    pathOf_lowerFixed parts hp
  have hsplit : splitChar '/' (pathOf parts).data = [] :: parts.map String.data := by
    show splitChar '/' (("/" : String) ++ joinSlash parts).data = _
    rw [String.data_append]
    have : (("/" : String)).data ++ (joinSlash parts).data =
        '/' :: (joinSlash parts).data := rfl
    rw [this, splitChar_cons_sep,
      joinSlash_data_no_join parts hne (fun p h => (hp p h).2.1)]
  unfold segs rawSegs pySplitSlash
  rw [pyLower_of_lowerFixed _ hlow, hsplit]
  rw [List.map_cons, List.map_map]
  have hmk : parts.map (String.mk ∘ String.data) = parts := by
    apply List.map_id''
    intro p
    rfl
  rw [hmk]
  rw [List.filter_cons]
  have h0 : ((("" : String) ≠ "") : Bool) = false := by simp
  simp only [decide_not]
  rw [List.filter_eq_self.mpr]
  · simp
  · intro p hmem
    simpa using (hp p hmem).1

/-- Every segment produced by `segs` is clean. -/
theorem cleanSeg_of_mem_segs (g : String) : ∀ x ∈ segs g, CleanSeg x := by
  intro x hx
  unfold segs rawSegs pySplitSlash at hx
  rw [List.mem_filter] at hx
  obtain ⟨hmem, hne⟩ := hx
  rw [List.mem_map] at hmem
  obtain ⟨ch, hch, rfl⟩ := hmem
  refine ⟨by simpa using hne, ?_, ?_⟩
  · show '/' ∉ ch
    exact splitChar_chunk_no_sep '/' _ ch hch
  · show ch.map Char.toLower = ch
    have hcomm := splitChar_map '/' Char.toLower char_toLower_eq_slash g.data
    rw [show (pyLower g).data = g.data.map Char.toLower from rfl] at hch
    rw [hcomm] at hch
    rw [List.mem_map] at hch
    obtain ⟨orig, _, rfl⟩ := hch
    rw [List.map_map]
    apply List.map_congr_left
    intro a _
    exact char_toLower_toLower a

theorem mem_collectSome_aux {α : Type} [DecidableEq α] (f : String → Option α)
    (groups : List String) (acc : Finset α) (a : α) :
    a ∈ groups.foldl (fun out g => match f g with | some x => insert x out | none => out) acc ↔
      a ∈ acc ∨ ∃ g ∈ groups, f g = some a := by
  induction groups generalizing acc with
  | nil => simp
  | cons g gs ih =>
    rw [List.foldl_cons, ih]
    rcases h : f g with _ | x
    · simp [h]
    · simp only [h, Finset.mem_insert]
      constructor
      · rintro (⟨rfl | ha⟩ | ⟨g', hg', hfg'⟩)
        · exact Or.inr ⟨g, List.mem_cons_self g gs, h⟩
        · exact Or.inl ha
        · exact Or.inr ⟨g', List.mem_cons_of_mem g hg', hfg'⟩
      · rintro (ha | ⟨g', hg', hfg'⟩)
        · exact Or.inl (Or.inr ha)
        · rcases List.mem_cons.mp hg' with rfl | hg''
          · rw [h] at hfg'
            exact Or.inl (Or.inl (Option.some.injEq _ _ ▸ hfg').symm)
          · exact Or.inr ⟨g', hg'', hfg'⟩

theorem mem_collectSome {α : Type} [DecidableEq α] (f : String → Option α)
    (groups : List String) (a : α) :
    a ∈ collectSome f groups ↔ ∃ g ∈ groups, f g = some a := by
  unfold collectSome
  rw [mem_collectSome_aux]
  simp

theorem adminOrgOf_eq_some (g : String) (o : String) :
    adminOrgOf g = some o ↔ segs g = [o, "admin"] := by
  unfold adminOrgOf
  rcases h : segs g with _ | ⟨a, _ | ⟨b, _ | ⟨c, t⟩⟩⟩ <;> simp
  by_cases hb : b = "admin" <;> simp [hb]

theorem managedTeamOf_eq_some (g : String) (p : String × String) :
    managedTeamOf g = some p ↔ segs g = [p.1, p.2, "manager"] := by
  unfold managedTeamOf
  rcases h : segs g with _ | ⟨a, _ | ⟨b, _ | ⟨c, _ | ⟨d, t⟩⟩⟩⟩ <;> simp
  by_cases hc : c = "manager" <;> simp [hc, Prod.ext_iff]

theorem memberTeamOf_eq_some (g : String) (p : String × String) :
    memberTeamOf g = some p ↔ segs g = [p.1, p.2, "member"] := by
  unfold memberTeamOf
  rcases h : segs g with _ | ⟨a, _ | ⟨b, _ | ⟨c, _ | ⟨d, t⟩⟩⟩⟩ <;> simp
  by_cases hc : c = "member" <;> simp [hc, Prod.ext_iff]

/-- Membership characterization of `parse_admin_orgs`. -/
theorem mem_parse_admin_orgs (groups : List String) (o : String) :
    o ∈ parse_admin_orgs groups ↔ ∃ g ∈ groups, segs g = [o, "admin"] := by
  unfold parse_admin_orgs
  rw [mem_collectSome]
  constructor
  · rintro ⟨g, hg, hfg⟩
    exact ⟨g, hg, (adminOrgOf_eq_some g o).mp hfg⟩
  · rintro ⟨g, hg, hsg⟩
    exact ⟨g, hg, (adminOrgOf_eq_some g o).mpr hsg⟩

/-- Membership characterization of `parse_managed_teams`. -/
theorem mem_parse_managed_teams (groups : List String) (p : String × String) :
    p ∈ parse_managed_teams groups ↔ ∃ g ∈ groups, segs g = [p.1, p.2, "manager"] := by
  unfold parse_managed_teams
  rw [mem_collectSome]
  constructor
  · rintro ⟨g, hg, hfg⟩
    exact ⟨g, hg, (managedTeamOf_eq_some g p).mp hfg⟩
  · rintro ⟨g, hg, hsg⟩
    exact ⟨g, hg, (managedTeamOf_eq_some g p).mpr hsg⟩

/-- Membership characterization of `parse_member_teams`. -/
theorem mem_parse_member_teams (groups : List String) (p : String × String) :
    p ∈ parse_member_teams groups ↔ ∃ g ∈ groups, segs g = [p.1, p.2, "member"] := by
  unfold parse_member_teams
  rw [mem_collectSome]
  constructor
  · rintro ⟨g, hg, hfg⟩
    exact ⟨g, hg, (memberTeamOf_eq_some g p).mp hfg⟩
  · rintro ⟨g, hg, hsg⟩
    exact ⟨g, hg, (memberTeamOf_eq_some g p).mpr hsg⟩

/-! ### Lemmas about `unique_users` -/
theorem uniqueUsersGo_cons_none (seen : List String) (w : KcUser) (ws : List KcUser)
    (hw : w.uid = none) :
    uniqueUsersGo seen (w :: ws) = uniqueUsersGo seen ws := by
  rw [uniqueUsersGo]
  simp only [hw]

theorem uniqueUsersGo_cons_keep (seen : List String) (w : KcUser) (ws : List KcUser)
    (s0 : String) (hw : w.uid = some s0) (hc : s0 ≠ "" ∧ s0 ∉ seen) :
    uniqueUsersGo seen (w :: ws) = w :: uniqueUsersGo (s0 :: seen) ws := by
  rw [uniqueUsersGo]
  simp only [hw]
  rw [if_pos hc]

theorem uniqueUsersGo_cons_skip (seen : List String) (w : KcUser) (ws : List KcUser)
    (s0 : String) (hw : w.uid = some s0) (hc : ¬ (s0 ≠ "" ∧ s0 ∉ seen)) :
    uniqueUsersGo seen (w :: ws) = uniqueUsersGo seen ws := by
  rw [uniqueUsersGo]
  simp only [hw]
  rw [if_neg hc]

theorem mem_uniqueUsersGo (users : List KcUser) :
    ∀ (seen : List String) (u : KcUser),
      u ∈ uniqueUsersGo seen users ↔
        ∃ s, u.uid = some s ∧ s ≠ "" ∧ s ∉ seen ∧
          users.find? (fun v => decide (v.uid = some s)) = some u := by
  induction users with
  | nil => intro seen u; simp [uniqueUsersGo]
  | cons w ws ih =>
    intro seen u
    rcases hw : w.uid with _ | s0
    · rw [uniqueUsersGo_cons_none seen w ws hw, ih seen u]
      constructor
      · rintro ⟨s, hu, hne, hnin, hfind⟩
        refine ⟨s, hu, hne, hnin, ?_⟩
        rw [List.find?_cons_of_neg ws (by simp [hw]), hfind]
      · rintro ⟨s, hu, hne, hnin, hfind⟩
        rw [List.find?_cons_of_neg ws (by simp [hw])] at hfind
        exact ⟨s, hu, hne, hnin, hfind⟩
    · by_cases hcond : s0 ≠ "" ∧ s0 ∉ seen
      · rw [uniqueUsersGo_cons_keep seen w ws s0 hw hcond,
          List.mem_cons, ih (s0 :: seen) u]
        constructor
        · rintro (rfl | ⟨s, hu, hne, hnin, hfind⟩)
          · exact ⟨s0, hw, hcond.1, hcond.2,
              List.find?_cons_of_pos ws (by simp [hw])⟩
          · have hs_ne : s ≠ s0 := fun h => hnin (h ▸ List.mem_cons_self s0 seen)
            refine ⟨s, hu, hne, fun h => hnin (List.mem_cons_of_mem s0 h), ?_⟩
            rw [List.find?_cons_of_neg ws
              (by simp [hw]; exact Ne.symm hs_ne), hfind]
        · rintro ⟨s, hu, hne, hnin, hfind⟩
          by_cases hs : s = s0
          · subst hs
            rw [List.find?_cons_of_pos ws (by simp [hw])] at hfind
            exact Or.inl (Option.some.injEq _ _ ▸ hfind).symm
          · rw [List.find?_cons_of_neg ws
              (by simp [hw]; exact Ne.symm hs)] at hfind
            refine Or.inr ⟨s, hu, hne, ?_, hfind⟩
            intro hmem
            rcases List.mem_cons.mp hmem with h | h
            · exact hs h
            · exact hnin h
      · rw [uniqueUsersGo_cons_skip seen w ws s0 hw hcond, ih seen u]
        constructor
        · rintro ⟨s, hu, hne, hnin, hfind⟩
          have hs_ne : s ≠ s0 := by
            rintro rfl
            exact hcond ⟨hne, hnin⟩
          refine ⟨s, hu, hne, hnin, ?_⟩
          rw [List.find?_cons_of_neg ws
            (by simp [hw]; exact Ne.symm hs_ne), hfind]
        · rintro ⟨s, hu, hne, hnin, hfind⟩
          have hs_ne : s ≠ s0 := by
            rintro rfl
            exact hcond ⟨hne, hnin⟩
          rw [List.find?_cons_of_neg ws
            (by simp [hw]; exact Ne.symm hs_ne)] at hfind
          exact ⟨s, hu, hne, hnin, hfind⟩

theorem uniqueUsersGo_uid_not_seen (users : List KcUser) :
    ∀ (seen : List String) (u : KcUser), u ∈ uniqueUsersGo seen users →
      ∃ s, u.uid = some s ∧ s ≠ "" ∧ s ∉ seen := by
  intro seen u hu
  obtain ⟨s, h1, h2, h3, _⟩ := (mem_uniqueUsersGo users seen u).mp hu
  exact ⟨s, h1, h2, h3⟩

theorem uniqueUsersGo_nodup (users : List KcUser) :
    ∀ (seen : List String), ((uniqueUsersGo seen users).map KcUser.uid).Nodup := by
  induction users with
  | nil => intro seen; simp [uniqueUsersGo]
  | cons w ws ih =>
    intro seen
    rcases hw : w.uid with _ | s0
    · rw [uniqueUsersGo_cons_none seen w ws hw]
      exact ih seen
    · by_cases hcond : s0 ≠ "" ∧ s0 ∉ seen
      · rw [uniqueUsersGo_cons_keep seen w ws s0 hw hcond, List.map_cons, List.nodup_cons]
        refine ⟨?_, ih (s0 :: seen)⟩
        intro hmem
        rw [List.mem_map] at hmem
        obtain ⟨v, hv, hvid⟩ := hmem
        obtain ⟨s, hs1, _, hs3⟩ := uniqueUsersGo_uid_not_seen ws (s0 :: seen) v hv
        rw [hs1, hw] at hvid
        have : s = s0 := Option.some.injEq _ _ ▸ hvid
        exact hs3 (this ▸ List.mem_cons_self s0 seen)
      · rw [uniqueUsersGo_cons_skip seen w ws s0 hw hcond]
        exact ih seen

theorem uniqueUsersGo_sublist (users : List KcUser) :
    ∀ (seen : List String), (uniqueUsersGo seen users).Sublist users := by
  induction users with
  | nil => intro seen; simp [uniqueUsersGo]
  | cons w ws ih =>
    intro seen
    rcases hw : w.uid with _ | s0
    · rw [uniqueUsersGo_cons_none seen w ws hw]
      exact (ih seen).cons w
    · by_cases hcond : s0 ≠ "" ∧ s0 ∉ seen
      · rw [uniqueUsersGo_cons_keep seen w ws s0 hw hcond]
        exact (ih (s0 :: seen)).cons₂ w
      · rw [uniqueUsersGo_cons_skip seen w ws s0 hw hcond]
        exact (ih seen).cons w

theorem uniqueUsers_all_uidOk (users : List KcUser) :
    (unique_users users).all uidOk = true := by
  rw [List.all_eq_true]
  intro u hu
  obtain ⟨s, h1, h2, _⟩ := uniqueUsersGo_uid_not_seen users [] u hu
  unfold uidOk
  rw [h1]
  simpa using h2

theorem list_members_recursive_eq (gid : String) (mOk : Bool) (ms : List KcUser)
    (sOk : Bool) (subs : List KcGroup) :
    list_members_recursive (.node gid mOk ms sOk subs) =
      unique_users ((if mOk then ms else []) ++
        (if sOk then (subs.map list_members_recursive).flatten else [])) := by
  rw [list_members_recursive]
  simp [List.attach_map_val]

/-- Claim C3: `parse_admin_orgs` returns exactly the first segments of the
paths whose lowered, empty-filtered segment list is `[org, "admin"]`;
malformed paths are silently excluded (the function is total), as the
concrete conjunct shows on leading/trailing/double slashes and wrong-depth
paths. -/
theorem C3_parse_admin_orgs_exact :
    (∀ (groups : List String) (o : String),
      o ∈ parse_admin_orgs groups ↔ ∃ g ∈ groups, segs g = [o, "admin"])
    ∧ parse_admin_orgs ["//acme/admin/", "/acme", "bad", "/x/y/z/admin"] = {"acme"} := by
  constructor
  · exact mem_parse_admin_orgs
  · decide

/-- Claim C10: `unique_users` keeps exactly the first record of each
non-empty id, in order: membership is equivalent to being the `find?`-first
record of one's id, the output ids are pairwise distinct, the output is a
sublist of the input (first-occurrence order preserved), and every kept
record has a non-empty id. -/
theorem C10_unique_users_spec :
    ∀ (users : List KcUser),
      (∀ u : KcUser, u ∈ unique_users users ↔
        ∃ s, u.uid = some s ∧ s ≠ "" ∧
          users.find? (fun v => decide (v.uid = some s)) = some u)
      ∧ ((unique_users users).map KcUser.uid).Nodup
      ∧ (unique_users users).Sublist users
      ∧ (unique_users users).all uidOk = true := by
  intro users
  refine ⟨?_, uniqueUsersGo_nodup users [], uniqueUsersGo_sublist users [],
    uniqueUsers_all_uidOk users⟩
  intro u
  rw [unique_users, mem_uniqueUsersGo users [] u]
  constructor
  · rintro ⟨s, h1, h2, _, h4⟩
    exact ⟨s, h1, h2, h4⟩
  · rintro ⟨s, h1, h2, h4⟩
    exact ⟨s, h1, h2, by simp, h4⟩

/-- Claim C8: `list_members_recursive` deduplicates by user id (each returned
record has a non-empty id and no id repeats), and a provider error on the
members fetch or the subgroup fetch of a node contributes zero members from
that branch without failing the listing. -/
theorem C8_list_members_recursive_spec :
    (∀ g : KcGroup, (list_members_recursive g).all uidOk = true
      ∧ ((list_members_recursive g).map KcUser.uid).Nodup)
    ∧ (∀ (gid : String) (ms : List KcUser) (sOk : Bool) (subs : List KcGroup),
        list_members_recursive (.node gid false ms sOk subs) =
          list_members_recursive (.node gid true [] sOk subs))
    ∧ (∀ (gid : String) (mOk : Bool) (ms : List KcUser) (subs : List KcGroup),
        list_members_recursive (.node gid mOk ms false subs) =
          list_members_recursive (.node gid mOk ms true [])) := by
  refine ⟨?_, ?_, ?_⟩
  · rintro ⟨gid, mOk, ms, sOk, subs⟩
    rw [list_members_recursive_eq]
    exact ⟨uniqueUsers_all_uidOk _, uniqueUsersGo_nodup _ []⟩
  · intro gid ms sOk subs
    rw [list_members_recursive_eq, list_members_recursive_eq]
    simp
  · intro gid mOk ms subs
    rw [list_members_recursive_eq, list_members_recursive_eq]
    simp

/-! ### Claims C5, C6, C9 -/
/-- Claim C5: the super-admin check passes exactly when some group lowers to
the literal one-segment path `/super-admin`; a longer path that merely starts
with `/super-admin` never passes. -/
theorem C5_super_admin_literal :
    (∀ groups : List String, check_super_admin groups = .ok () ↔
      ∃ g ∈ groups, pyLower g = "/super-admin")
    ∧ check_super_admin ["/super-admin"] = .ok ()
    ∧ check_super_admin ["/SUPER-ADMIN"] = .ok ()
    ∧ (∀ s : String, check_super_admin ["/super-admin/" ++ s] =
        .error ⟨403, "Super Admin privileges required"⟩) := by
  refine ⟨?_, by decide, by decide, ?_⟩
  · intro groups
    unfold check_super_admin
    constructor
    · intro hok
      by_cases h : "/super-admin" ∈ groups.map pyLower
      · obtain ⟨g, hg, he⟩ := List.mem_map.mp h
        exact ⟨g, hg, he⟩
      · rw [if_neg h] at hok
        exact absurd hok (by simp)
    · rintro ⟨g, hg, he⟩
      rw [if_pos (List.mem_map.mpr ⟨g, hg, he⟩)]
  · intro s
    unfold check_super_admin
    rw [if_neg]
    intro hmem
    have heq : ("/super-admin" : String) = pyLower ("/super-admin/" ++ s) := by
      simpa using hmem
    have hlen : ("/super-admin" : String).data.length =
        (pyLower ("/super-admin/" ++ s)).data.length := by rw [← heq]
    have h1 : (pyLower ("/super-admin/" ++ s)).data.length = 13 + s.data.length := by
      show (("/super-admin/" ++ s).data.map Char.toLower).length = _
      rw [List.length_map, String.data_append, List.length_append]
      have h13 : ("/super-admin/" : String).data.length = 13 := by decide
      omega
    rw [h1] at hlen
    have h2 : ("/super-admin" : String).data.length = 12 := by decide
    omega

/-- Claim C6: `validate_group_name_not_reserved` returns the trimmed,
lowercased name; an empty normalized value yields the 400 required-name
failure and a value in the closed reserved set (spelled out literally)
yields the 400 reserved-name failure; `"Admin"` is rejected as reserved and
`" Acme "` normalizes to `"acme"`. -/
theorem C6_validate_name_spec :
    (∀ raw kind : String, normalize_kc_name raw = "" →
      validate_group_name_not_reserved raw kind =
        .error ⟨400, kind ++ " name is required"⟩)
    ∧ (∀ raw kind : String, normalize_kc_name raw ≠ "" →
        normalize_kc_name raw ∈ (["admin", "super-admin", "user", "manager",
          "member", "admins", "users", "managers", "members", "role",
          "roles"] : List String) →
        validate_group_name_not_reserved raw kind =
          .error ⟨400, kind ++ " name " ++ raw ++ " is reserved and cannot be used"⟩)
    ∧ (∀ raw kind : String, normalize_kc_name raw ≠ "" →
        normalize_kc_name raw ∉ (["admin", "super-admin", "user", "manager",
          "member", "admins", "users", "managers", "members", "role",
          "roles"] : List String) →
        validate_group_name_not_reserved raw kind = .ok (normalize_kc_name raw))
    ∧ validate_group_name_not_reserved "Admin" "Organization" =
        .error ⟨400, "Organization name Admin is reserved and cannot be used"⟩
    ∧ validate_group_name_not_reserved " Acme " "Organization" = .ok "acme" := by
  have hres : RESERVED_GROUP_NAMES =
      (["admin", "super-admin", "user", "manager", "member", "admins", "users",
        "managers", "members", "role", "roles"] : List String) := rfl
  refine ⟨?_, ?_, ?_, by decide, by decide⟩
  · intro raw kind h
    unfold validate_group_name_not_reserved
    rw [if_pos h]
  · intro raw kind h1 h2
    unfold validate_group_name_not_reserved
    rw [if_neg h1, if_pos (hres ▸ h2)]
  · intro raw kind h1 h2
    unfold validate_group_name_not_reserved
    rw [if_neg h1, if_neg (hres ▸ h2)]

/-- Witness for C6 at concrete inputs. -/
theorem C6_validate_name_spec_witness :
    validate_group_name_not_reserved "   " "Organization" =
      .error ⟨400, "Organization name is required"⟩
    ∧ validate_group_name_not_reserved "Admin" "Team" =
      .error ⟨400, "Team name Admin is reserved and cannot be used"⟩
    ∧ validate_group_name_not_reserved " Acme " "Organization" = .ok "acme" :=
  ⟨C6_validate_name_spec.1 "   " "Organization" (by decide),
   C6_validate_name_spec.2.1 "Admin" "Team" (by decide) (by decide),
   C6_validate_name_spec.2.2.2.2⟩

theorem is_user_in_scope_empty (kc : KC) (target : String) :
    is_user_in_scope kc target ∅ ∅ = false := by
  unfold is_user_in_scope
  rw [if_pos ⟨rfl, rfl⟩]

theorem is_user_in_scope_err (kc : KC) (target : String)
    (so : Finset String) (st : Finset (String × String))
    (herr : kc.userGroups target = .error ()) :
    is_user_in_scope kc target so st = false := by
  unfold is_user_in_scope
  by_cases h : so = ∅ ∧ st = ∅
  · rw [if_pos h]
  · rw [if_neg h, herr]

/-- Claim C9: `is_user_in_scope` fails closed: it is `False` whenever both
scope sets are empty (for every provider state, so without consulting it)
and whenever fetching the target's groups fails; hence `get_user` for a
non-super-admin caller whose parsed scope sets are empty always denies with
the 403 `Not allowed to view this user`. -/
theorem C9_fail_closed :
    (∀ (kc : KC) (target : String), is_user_in_scope kc target ∅ ∅ = false)
    ∧ (∀ (kc : KC) (target : String) (so : Finset String)
        (st : Finset (String × String)),
        kc.userGroups target = .error () →
        is_user_in_scope kc target so st = false)
    ∧ (∀ (kc : KC) (uid : String) (groups : List String),
        "/super-admin" ∉ groups →
        parse_admin_orgs groups = ∅ →
        parse_managed_teams groups = ∅ →
        get_user kc uid groups = .error ⟨403, "Not allowed to view this user"⟩) := by
  refine ⟨is_user_in_scope_empty, fun kc t so st h => is_user_in_scope_err kc t so st h, ?_⟩
  intro kc uid groups hsup h1 h2
  unfold get_user
  rw [if_neg hsup, h1, h2, if_pos]
  rw [is_user_in_scope_empty]
  simp

/-- Witness for C9 at concrete inputs. -/
theorem C9_fail_closed_witness :
    is_user_in_scope kcEmpty "target-user" {"acme"} ∅ = false
    ∧ get_user kcEmpty "target-user" ["/acme/user"] =
        .error ⟨403, "Not allowed to view this user"⟩ :=
  ⟨C9_fail_closed.2.1 kcEmpty "target-user" {"acme"} ∅ rfl,
   C9_fail_closed.2.2 kcEmpty "target-user" ["/acme/user"] (by decide)
     (by decide) (by decide)⟩

theorem mem_adminOrgsList (gs : List String) (o : String) :
    o ∈ adminOrgsList gs ↔ o ∈ parse_admin_orgs gs := by
  unfold adminOrgsList parse_admin_orgs
  rw [List.mem_dedup, List.mem_filterMap, mem_collectSome]

theorem mem_managedTeamsList (gs : List String) (p : String × String) :
    p ∈ managedTeamsList gs ↔ p ∈ parse_managed_teams gs := by
  unfold managedTeamsList parse_managed_teams
  rw [List.mem_dedup, List.mem_filterMap, mem_collectSome]

theorem mem_memberTeamsList (gs : List String) (p : String × String) :
    p ∈ memberTeamsList gs ↔ p ∈ parse_member_teams gs := by
  unfold memberTeamsList parse_member_teams
  rw [List.mem_dedup, List.mem_filterMap, mem_collectSome]

theorem parse_admin_orgs_map_pyLower (gs : List String) :
    parse_admin_orgs (gs.map pyLower) = parse_admin_orgs gs := by
  apply Finset.ext
  intro o
  rw [mem_parse_admin_orgs, mem_parse_admin_orgs]
  constructor
  · rintro ⟨g', hg', hs⟩
    rw [List.mem_map] at hg'
    obtain ⟨g, hg, rfl⟩ := hg'
    exact ⟨g, hg, by rw [← segs_pyLower g]; exact hs⟩
  · rintro ⟨g, hg, hs⟩
    exact ⟨pyLower g, List.mem_map_of_mem _ hg, by rw [segs_pyLower g]; exact hs⟩

theorem parse_managed_teams_map_pyLower (gs : List String) :
    parse_managed_teams (gs.map pyLower) = parse_managed_teams gs := by
  apply Finset.ext
  intro p
  rw [mem_parse_managed_teams, mem_parse_managed_teams]
  constructor
  · rintro ⟨g', hg', hs⟩
    rw [List.mem_map] at hg'
    obtain ⟨g, hg, rfl⟩ := hg'
    exact ⟨g, hg, by rw [← segs_pyLower g]; exact hs⟩
  · rintro ⟨g, hg, hs⟩
    exact ⟨pyLower g, List.mem_map_of_mem _ hg, by rw [segs_pyLower g]; exact hs⟩

theorem parse_member_teams_map_pyLower (gs : List String) :
    parse_member_teams (gs.map pyLower) = parse_member_teams gs := by
  apply Finset.ext
  intro p
  rw [mem_parse_member_teams, mem_parse_member_teams]
  constructor
  · rintro ⟨g', hg', hs⟩
    rw [List.mem_map] at hg'
    obtain ⟨g, hg, rfl⟩ := hg'
    exact ⟨g, hg, by rw [← segs_pyLower g]; exact hs⟩
  · rintro ⟨g, hg, hs⟩
    exact ⟨pyLower g, List.mem_map_of_mem _ hg, by rw [segs_pyLower g]; exact hs⟩

theorem cleanSeg_of_mem_parse_admin_orgs (gs : List String) (o : String)
    (h : o ∈ parse_admin_orgs gs) : CleanSeg o := by
  obtain ⟨g, _, hseg⟩ := (mem_parse_admin_orgs gs o).mp h
  refine cleanSeg_of_mem_segs g o ?_
  rw [hseg]
  exact List.mem_cons_self _ _

theorem cleanSeg_of_mem_parse_managed_teams (gs : List String) (p : String × String)
    (h : p ∈ parse_managed_teams gs) : CleanSeg p.1 ∧ CleanSeg p.2 := by
  obtain ⟨g, _, hseg⟩ := (mem_parse_managed_teams gs p).mp h
  constructor
  · refine cleanSeg_of_mem_segs g p.1 ?_
    rw [hseg]
    exact List.mem_cons_self _ _
  · refine cleanSeg_of_mem_segs g p.2 ?_
    rw [hseg]
    exact List.mem_cons_of_mem _ (List.mem_cons_self _ _)

theorem cleanSeg_of_mem_parse_member_teams (gs : List String) (p : String × String)
    (h : p ∈ parse_member_teams gs) : CleanSeg p.1 ∧ CleanSeg p.2 := by
  obtain ⟨g, _, hseg⟩ := (mem_parse_member_teams gs p).mp h
  constructor
  · refine cleanSeg_of_mem_segs g p.1 ?_
    rw [hseg]
    exact List.mem_cons_self _ _
  · refine cleanSeg_of_mem_segs g p.2 ?_
    rw [hseg]
    exact List.mem_cons_of_mem _ (List.mem_cons_self _ _)

theorem cleanSeg_admin : CleanSeg "admin" := ⟨by decide, by decide, by decide⟩

theorem cleanSeg_manager : CleanSeg "manager" := ⟨by decide, by decide, by decide⟩

theorem cleanSeg_member : CleanSeg "member" := ⟨by decide, by decide, by decide⟩

/-- Claim C4 counterexample: the parse functions lowercase but never trim:
the whitespace-padded variant `"/acme/admin "` of `"/acme/admin"` parses to
`∅`, not to `{"acme"}`, so whitespace-insensitivity fails as stated. -/
theorem C4_not_whitespace_insensitive :
    parse_admin_orgs ["/acme/admin"] = {"acme"}
    ∧ parse_admin_orgs ["/acme/admin "] = ∅
    ∧ parse_admin_orgs ["/acme/admin "] ≠ parse_admin_orgs ["/acme/admin"] := by
  refine ⟨by decide, by decide, by decide⟩

/-- Claim C4 amended: `parse_admin_orgs`, `parse_managed_teams` and
`parse_member_teams` are case-insensitive (two group lists equal up to
lowercasing parse identically, e.g. `"/Acme/Admin"` also yields `{"acme"}`)
and idempotent (re-parsing the canonical paths rebuilt from an output set
reproduces that set); segments are only lowercased, never trimmed. -/
theorem C4_amended_case_insensitive_idempotent :
    (∀ gs hs : List String, gs.map pyLower = hs.map pyLower →
      parse_admin_orgs gs = parse_admin_orgs hs
      ∧ parse_managed_teams gs = parse_managed_teams hs
      ∧ parse_member_teams gs = parse_member_teams hs)
    ∧ (∀ gs : List String,
        parse_admin_orgs ((adminOrgsList gs).map (fun o => pathOf [o, "admin"])) =
          parse_admin_orgs gs)
    ∧ (∀ gs : List String,
        parse_managed_teams ((managedTeamsList gs).map
          (fun p => pathOf [p.1, p.2, "manager"])) = parse_managed_teams gs)
    ∧ (∀ gs : List String,
        parse_member_teams ((memberTeamsList gs).map
          (fun p => pathOf [p.1, p.2, "member"])) = parse_member_teams gs)
    ∧ parse_admin_orgs ["/Acme/Admin"] = {"acme"} := by
  refine ⟨?_, ?_, ?_, ?_, by decide⟩
  · intro gs hs h
    refine ⟨?_, ?_, ?_⟩
    · rw [← parse_admin_orgs_map_pyLower gs, h, parse_admin_orgs_map_pyLower hs]
    · rw [← parse_managed_teams_map_pyLower gs, h, parse_managed_teams_map_pyLower hs]
    · rw [← parse_member_teams_map_pyLower gs, h, parse_member_teams_map_pyLower hs]
  · intro gs
    apply Finset.ext
    intro o'
    rw [mem_parse_admin_orgs]
    constructor
    · rintro ⟨p, hp, hsp⟩
      rw [List.mem_map] at hp
      obtain ⟨o, ho, rfl⟩ := hp
      have hmem := (mem_adminOrgsList gs o).mp ho
      have hco : CleanSeg o := cleanSeg_of_mem_parse_admin_orgs gs o hmem
      rw [segs_pathOf [o, "admin"] (by simp)
        (by
          intro q hq
          rcases List.mem_cons.mp hq with rfl | hq2
          · exact hco
          · have : q = "admin" := by simpa using hq2
            subst this
            exact cleanSeg_admin)] at hsp
      obtain rfl : o = o' := by simpa using hsp
      exact hmem
    · intro h
      refine ⟨pathOf [o', "admin"],
        List.mem_map_of_mem _ ((mem_adminOrgsList gs o').mpr h), ?_⟩
      have hco : CleanSeg o' := cleanSeg_of_mem_parse_admin_orgs gs o' h
      refine segs_pathOf [o', "admin"] (by simp) ?_
      intro q hq
      rcases List.mem_cons.mp hq with rfl | hq2
      · exact hco
      · have : q = "admin" := by simpa using hq2
        subst this
        exact cleanSeg_admin
  · intro gs
    apply Finset.ext
    intro p'
    rw [mem_parse_managed_teams]
    constructor
    · rintro ⟨q, hq, hsq⟩
      rw [List.mem_map] at hq
      obtain ⟨p, hp, rfl⟩ := hq
      have hmem := (mem_managedTeamsList gs p).mp hp
      obtain ⟨hc1, hc2⟩ := cleanSeg_of_mem_parse_managed_teams gs p hmem
      rw [segs_pathOf [p.1, p.2, "manager"] (by simp)
        (by
          intro q' hq'
          rcases List.mem_cons.mp hq' with rfl | hq2
          · exact hc1
          · rcases List.mem_cons.mp hq2 with rfl | hq3
            · exact hc2
            · have : q' = "manager" := by simpa using hq3
              subst this
              exact cleanSeg_manager)] at hsq
      have hpp : p.1 = p'.1 ∧ p.2 = p'.2 := by simpa using hsq
      have : p = p' := Prod.ext hpp.1 hpp.2
      exact this ▸ hmem
    · intro h
      refine ⟨pathOf [p'.1, p'.2, "manager"],
        List.mem_map_of_mem _ ((mem_managedTeamsList gs p').mpr h), ?_⟩
      obtain ⟨hc1, hc2⟩ := cleanSeg_of_mem_parse_managed_teams gs p' h
      refine segs_pathOf [p'.1, p'.2, "manager"] (by simp) ?_
      intro q' hq'
      rcases List.mem_cons.mp hq' with rfl | hq2
      · exact hc1
      · rcases List.mem_cons.mp hq2 with rfl | hq3
        · exact hc2
        · have : q' = "manager" := by simpa using hq3
          subst this
          exact cleanSeg_manager
  · intro gs
    apply Finset.ext
    intro p'
    rw [mem_parse_member_teams]
    constructor
    · rintro ⟨q, hq, hsq⟩
      rw [List.mem_map] at hq
      obtain ⟨p, hp, rfl⟩ := hq
      have hmem := (mem_memberTeamsList gs p).mp hp
      obtain ⟨hc1, hc2⟩ := cleanSeg_of_mem_parse_member_teams gs p hmem
      rw [segs_pathOf [p.1, p.2, "member"] (by simp)
        (by
          intro q' hq'
          rcases List.mem_cons.mp hq' with rfl | hq2
          · exact hc1
          · rcases List.mem_cons.mp hq2 with rfl | hq3
            · exact hc2
            · have : q' = "member" := by simpa using hq3
              subst this
              exact cleanSeg_member)] at hsq
      have hpp : p.1 = p'.1 ∧ p.2 = p'.2 := by simpa using hsq
      have : p = p' := Prod.ext hpp.1 hpp.2
      exact this ▸ hmem
    · intro h
      refine ⟨pathOf [p'.1, p'.2, "member"],
        List.mem_map_of_mem _ ((mem_memberTeamsList gs p').mpr h), ?_⟩
      obtain ⟨hc1, hc2⟩ := cleanSeg_of_mem_parse_member_teams gs p' h
      refine segs_pathOf [p'.1, p'.2, "member"] (by simp) ?_
      intro q' hq'
      rcases List.mem_cons.mp hq' with rfl | hq2
      · exact hc1
      · rcases List.mem_cons.mp hq2 with rfl | hq3
        · exact hc2
        · have : q' = "member" := by simpa using hq3
          subst this
          exact cleanSeg_member

/-- Witness for C4 amended at concrete inputs. -/
theorem C4_amended_witness :
    parse_admin_orgs ["/Acme/Admin", "/Beta/Ops/Manager"] =
      parse_admin_orgs ["/acme/admin", "/beta/ops/manager"]
    ∧ parse_managed_teams ["/Acme/Admin", "/Beta/Ops/Manager"] =
      parse_managed_teams ["/acme/admin", "/beta/ops/manager"] :=
  ⟨(C4_amended_case_insensitive_idempotent.1 ["/Acme/Admin", "/Beta/Ops/Manager"]
      ["/acme/admin", "/beta/ops/manager"] (by decide)).1,
   (C4_amended_case_insensitive_idempotent.1 ["/Acme/Admin", "/Beta/Ops/Manager"]
      ["/acme/admin", "/beta/ops/manager"] (by decide)).2.1⟩

theorem path_admin_eq (o : String) : "/" ++ o ++ "/admin" = pathOf [o, "admin"] := by
  apply String.ext
  rw [String.data_append, String.data_append]
  have h1 : (pathOf [o, "admin"]).data =
      ("/" : String).data ++ (o.data ++ (("/" : String).data ++ ("admin" : String).data)) := by
    show (("/" : String) ++ joinSlash [o, "admin"]).data = _
    rw [String.data_append]
    congr 1
    show ((o ++ "/" ++ "admin") : String).data = _
    rw [String.data_append, String.data_append, List.append_assoc]
  rw [h1]
  have h2 : ("/admin" : String).data = ("/" : String).data ++ ("admin" : String).data := by
    decide
  rw [h2, List.append_assoc]

theorem path_manager_eq (o t : String) :
    "/" ++ o ++ "/" ++ t ++ "/manager" = pathOf [o, t, "manager"] := by
  apply String.ext
  rw [String.data_append, String.data_append, String.data_append, String.data_append]
  have h1 : (pathOf [o, t, "manager"]).data =
      ("/" : String).data ++ (o.data ++ (("/" : String).data ++ (t.data ++
        (("/" : String).data ++ ("manager" : String).data)))) := by
    show (("/" : String) ++ joinSlash [o, t, "manager"]).data = _
    rw [String.data_append]
    congr 1
    show ((o ++ "/" ++ joinSlash [t, "manager"]) : String).data = _
    rw [String.data_append, String.data_append, List.append_assoc]
    congr 2
    show ((t ++ "/" ++ "manager") : String).data = _
    rw [String.data_append, String.data_append, List.append_assoc]
  rw [h1]
  have h2 : ("/manager" : String).data =
      ("/" : String).data ++ ("manager" : String).data := by decide
  rw [h2]
  simp [List.append_assoc]

/-- Over canonical group lists, literal membership of the org-admin path in
the lowered groups is exactly org-admin scope membership. -/
theorem admin_path_mem_iff (groups : List String) (o : String) (hco : CleanSeg o)
    (hg : ∀ g ∈ groups, Canonical g) :
    ("/" ++ o ++ "/admin") ∈ groups.map pyLower ↔ o ∈ parse_admin_orgs groups := by
  rw [path_admin_eq, mem_parse_admin_orgs]
  have hclean : ∀ p ∈ [o, "admin"], CleanSeg p := by
    intro q hq
    rcases List.mem_cons.mp hq with rfl | hq2
    · exact hco
    · have : q = "admin" := by simpa using hq2
      subst this
      exact cleanSeg_admin
  constructor
  · intro h
    obtain ⟨g, hgmem, he⟩ := List.mem_map.mp h
    refine ⟨g, hgmem, ?_⟩
    rw [← segs_pyLower g, he, segs_pathOf [o, "admin"] (by simp) hclean]
  · rintro ⟨g, hgmem, hseg⟩
    obtain ⟨parts, hne, hpclean, rfl⟩ := hg g hgmem
    rw [segs_pathOf parts hne hpclean] at hseg
    subst hseg
    refine List.mem_map.mpr ⟨pathOf [o, "admin"], hgmem, ?_⟩
    exact pyLower_of_lowerFixed _ (pathOf_lowerFixed _ hpclean)

/-- Over canonical group lists, literal membership of the team-manager path
in the lowered groups is exactly managed-team scope membership. -/
theorem manager_path_mem_iff (groups : List String) (o t : String)
    (hco : CleanSeg o) (hct : CleanSeg t) (hg : ∀ g ∈ groups, Canonical g) :
    ("/" ++ o ++ "/" ++ t ++ "/manager") ∈ groups.map pyLower ↔
      (o, t) ∈ parse_managed_teams groups := by
  rw [path_manager_eq, mem_parse_managed_teams]
  have hclean : ∀ p ∈ [o, t, "manager"], CleanSeg p := by
    intro q hq
    rcases List.mem_cons.mp hq with rfl | hq2
    · exact hco
    · rcases List.mem_cons.mp hq2 with rfl | hq3
      · exact hct
      · have : q = "manager" := by simpa using hq3
        subst this
        exact cleanSeg_manager
  constructor
  · intro h
    obtain ⟨g, hgmem, he⟩ := List.mem_map.mp h
    refine ⟨g, hgmem, ?_⟩
    rw [← segs_pyLower g, he, segs_pathOf [o, t, "manager"] (by simp) hclean]
  · rintro ⟨g, hgmem, hseg⟩
    obtain ⟨parts, hne, hpclean, rfl⟩ := hg g hgmem
    rw [segs_pathOf parts hne hpclean] at hseg
    subst hseg
    refine List.mem_map.mpr ⟨pathOf [o, t, "manager"], hgmem, ?_⟩
    exact pyLower_of_lowerFixed _ (pathOf_lowerFixed _ hpclean)

/-- Claim C1 counterexample: for the claimed scenario the gate does deny, but
the 403 detail names only the team: `"beta"` does not occur anywhere in the
message, so the denial does not name `beta`/`payments` as claimed. -/
theorem C1_denial_does_not_name_org :
    teamManagerChecker "beta" "payments" ["/acme/payments/manager"] =
      .error ⟨403, "Not a manager of team payments"⟩
    ∧ ("payments" : String).data <:+: ("Not a manager of team payments" : String).data
    ∧ ¬ (("beta" : String).data <:+: ("Not a manager of team payments" : String).data) := by
  refine ⟨by decide, by decide, by decide⟩

/-- Claim C1 amended: for canonical caller group paths and clean normalized
path parameters, the gate allows exactly when the caller is super-admin, or
the org is in `parse_admin_orgs`, or the (org, team) pair is in
`parse_managed_teams` (org-admin thus supersedes team-manager); and every
denial is the 403 `ForbiddenError` naming the team (but not the org). -/
theorem C1_team_manager_gate (org_name team_name : String) (groups : List String)
    (ho : CleanSeg (normalizeOr org_name)) (ht : CleanSeg (normalizeOr team_name))
    (hg : ∀ g ∈ groups, Canonical g) :
    (teamManagerChecker org_name team_name groups = .ok () ↔
      (is_super_admin groups = true
        ∨ normalizeOr org_name ∈ parse_admin_orgs groups
        ∨ (normalizeOr org_name, normalizeOr team_name) ∈ parse_managed_teams groups))
    ∧ (teamManagerChecker org_name team_name groups ≠ .ok () →
        teamManagerChecker org_name team_name groups =
          .error ⟨403, "Not a manager of team " ++ normalizeOr team_name⟩) := by
  have hsuper : ("/super-admin" ∈ groups.map pyLower) ↔ is_super_admin groups = true := by
    unfold is_super_admin
    simp
  have hadmin := admin_path_mem_iff groups (normalizeOr org_name) ho hg
  have hmgr := manager_path_mem_iff groups (normalizeOr org_name)
    (normalizeOr team_name) ho ht hg
  constructor
  · unfold teamManagerChecker
    by_cases h1 : "/super-admin" ∈ groups.map pyLower ∨
        ("/" ++ normalizeOr org_name ++ "/admin") ∈ groups.map pyLower
    · rw [if_pos h1]
      simp only [true_iff]
      rcases h1 with h1 | h1
      · exact Or.inl (hsuper.mp h1)
      · exact Or.inr (Or.inl (hadmin.mp h1))
    · rw [if_neg h1]
      by_cases h2 : ("/" ++ normalizeOr org_name ++ "/" ++ normalizeOr team_name ++
          "/manager") ∈ groups.map pyLower
      · rw [if_pos h2]
        simp only [true_iff]
        exact Or.inr (Or.inr (hmgr.mp h2))
      · rw [if_neg h2]
        constructor
        · intro hcon
          exact absurd hcon (by simp)
        · rintro (hs | had | hm)
          · exact absurd (Or.inl (hsuper.mpr hs)) h1
          · exact absurd (Or.inr (hadmin.mpr had)) h1
          · exact absurd (hmgr.mpr hm) h2
  · intro hne
    unfold teamManagerChecker at hne ⊢
    by_cases h1 : "/super-admin" ∈ groups.map pyLower ∨
        ("/" ++ normalizeOr org_name ++ "/admin") ∈ groups.map pyLower
    · rw [if_pos h1] at hne
      exact absurd rfl hne
    · rw [if_neg h1] at hne ⊢
      by_cases h2 : ("/" ++ normalizeOr org_name ++ "/" ++ normalizeOr team_name ++
          "/manager") ∈ groups.map pyLower
      · rw [if_pos h2] at hne
        exact absurd rfl hne
      · rw [if_neg h2]

/-- Witness for C1 amended: the claimed scenario itself. -/
theorem C1_team_manager_gate_witness :
    teamManagerChecker "beta" "payments" ["/acme/payments/manager"] =
      .error ⟨403, "Not a manager of team " ++ normalizeOr "payments"⟩ := by
  have hcanon : ∀ g ∈ (["/acme/payments/manager"] : List String), Canonical g := by
    intro g hgmem
    have : g = "/acme/payments/manager" := by simpa using hgmem
    subst this
    refine ⟨["acme", "payments", "manager"], by simp, ?_, by decide⟩
    intro p hp
    rcases List.mem_cons.mp hp with rfl | hp2
    · exact ⟨by decide, by decide, by decide⟩
    · rcases List.mem_cons.mp hp2 with rfl | hp3
      · exact ⟨by decide, by decide, by decide⟩
      · have : p = "manager" := by simpa using hp3
        subst this
        exact cleanSeg_manager
  have h := C1_team_manager_gate "beta" "payments" ["/acme/payments/manager"]
    ⟨by decide, by decide, by decide⟩ ⟨by decide, by decide, by decide⟩ hcanon
  exact h.2 (by decide)

/-! ### Claim C2: `list_users` scope inference -/
theorem is_super_admin_true_iff (groups : List String) :
    is_super_admin groups = true ↔ "/super-admin" ∈ groups.map pyLower := by
  unfold is_super_admin
  simp

theorem is_super_admin_false_iff (groups : List String) :
    is_super_admin groups = false ↔ "/super-admin" ∉ groups.map pyLower := by
  unfold is_super_admin
  simp

/-- Claim C2: `list_users`: a team without an org is a 400 `BadRequestError`
for every provider state; with neither given, the scope is inferred in
priority order super-admin (all users), then non-empty `admin_orgs`
(deduplicated union of recursive members over the ascending org list), then
non-empty `managed_teams` (likewise over team paths), else a 403
`ForbiddenError`. -/
theorem C2_list_users_scope_inference (kc : KC) (groups : List String) (t : String) :
    (t ≠ "" → list_users kc none (some t) groups =
      .error ⟨400, "team_name requires org_name"⟩)
    ∧ (is_super_admin groups = true →
        list_users kc none none groups =
          .ok (kc.allUsers.map (enrich_user_with_groups kc)))
    ∧ (is_super_admin groups = false →
        parse_admin_orgs groups ≠ ∅ →
        list_users kc none none groups = .ok ((unique_users
          (((sortedAdminOrgs (groups.map pyLower)).map
            (fun org => orgMembersAt kc ("/" ++ org))).flatten)).map
          (enrich_user_with_groups kc)))
    ∧ (is_super_admin groups = false →
        parse_admin_orgs groups = ∅ →
        parse_managed_teams groups ≠ ∅ →
        list_users kc none none groups = .ok ((unique_users
          (((sortedManagedTeams (groups.map pyLower)).map
            (fun ot => orgMembersAt kc ("/" ++ ot.1 ++ "/" ++ ot.2))).flatten)).map
          (enrich_user_with_groups kc)))
    ∧ (is_super_admin groups = false →
        parse_admin_orgs groups = ∅ →
        parse_managed_teams groups = ∅ →
        list_users kc none none groups = .error ⟨403, "Not allowed to list users"⟩) := by
  refine ⟨?_, ?_, ?_, ?_, ?_⟩
  · intro ht
    simp [list_users, optGiven, ht]
  · intro hs
    have hs' := (is_super_admin_true_iff groups).mp hs
    simp [list_users, optGiven, hs']
  · intro hs ha
    have hs' := (is_super_admin_false_iff groups).mp hs
    rw [← parse_admin_orgs_map_pyLower groups] at ha
    simp [list_users, optGiven, hs', ha]
  · intro hs ha hm
    have hs' := (is_super_admin_false_iff groups).mp hs
    rw [← parse_admin_orgs_map_pyLower groups] at ha
    rw [← parse_managed_teams_map_pyLower groups] at hm
    simp [list_users, optGiven, hs', ha, hm]
  · intro hs ha hm
    have hs' := (is_super_admin_false_iff groups).mp hs
    rw [← parse_admin_orgs_map_pyLower groups] at ha
    rw [← parse_managed_teams_map_pyLower groups] at hm
    simp [list_users, optGiven, hs', ha, hm]

/-- Witness for C2 at concrete inputs. -/
theorem C2_list_users_scope_inference_witness :
    list_users kcEmpty none (some "payments") ["/acme/admin"] =
      .error ⟨400, "team_name requires org_name"⟩
    ∧ list_users kcEmpty none none ["/acme/admin"] = .ok ((unique_users
        (((sortedAdminOrgs (["/acme/admin"].map pyLower)).map
          (fun org => orgMembersAt kcEmpty ("/" ++ org))).flatten)).map
        (enrich_user_with_groups kcEmpty))
    ∧ list_users kcEmpty none none ["/acme/user"] =
        .error ⟨403, "Not allowed to list users"⟩ :=
  ⟨(C2_list_users_scope_inference kcEmpty ["/acme/admin"] "payments").1 (by decide),
   (C2_list_users_scope_inference kcEmpty ["/acme/admin"] "x").2.2.1
     (by decide) (by decide),
   (C2_list_users_scope_inference kcEmpty ["/acme/user"] "x").2.2.2.2
     (by decide) (by decide) (by decide)⟩

theorem create_organization_conflict (st : KcState) (name : String)
    (au : Option String) (u : String → Option String) (n : String)
    (hval : validate_group_name_not_reserved name "Organization" = .ok n)
    (hex : ∃ o ∈ st.orgs, o.name = n) :
    create_organization st name au u = (st, .error ⟨409, "Organization already exists"⟩) := by
  have hany : (st.orgs.any fun o => decide (o.name = n)) = true := by
    rw [List.any_eq_true]
    obtain ⟨o, ho, he⟩ := hex
    exact ⟨o, ho, by simpa using he⟩
  have hroot : kc_create_root st n = .error () := by
    unfold kc_create_root
    rw [if_pos hany]
  simp only [create_organization, hval, hroot]

theorem create_organization_success (st : KcState) (name : String)
    (u : String → Option String) (n : String)
    (hval : validate_group_name_not_reserved name "Organization" = .ok n)
    (hnew : ∀ o ∈ st.orgs, o.name ≠ n)
    (hfresh : ∀ o ∈ st.orgs, o.gid < st.nextId) :
    create_organization st name none u =
      (⟨st.orgs ++ [⟨st.nextId, n, [(st.nextId + 1, "admin"), (st.nextId + 2, "user")]⟩],
        st.memberships, st.nextId + 3⟩,
       .ok ("Org " ++ n ++ " created (No admin assigned).")) := by
  have hany : (st.orgs.any fun o => decide (o.name = n)) = false := by
    rw [List.any_eq_false]
    intro o ho
    simpa using hnew o ho
  have hnone : st.orgs.find? (fun o => decide (o.gid = st.nextId)) = none := by
    rw [List.find?_eq_none]
    intro x hx
    simp only [decide_eq_true_eq]
    exact Nat.ne_of_lt (hfresh x hx)
  have hroot : kc_create_root st n =
      .ok (st.nextId, ⟨st.orgs ++ [⟨st.nextId, n, []⟩], st.memberships, st.nextId + 1⟩) := by
    unfold kc_create_root
    rw [if_neg (by simp [hany])]
  have hmapid : ∀ (ch : List (Nat × String)),
      (st.orgs.map (fun p => if p.gid = st.nextId then
        { p with children := p.children ++ ch } else p)) = st.orgs := by
    intro ch
    refine (List.map_congr_left ?_).trans (List.map_id st.orgs)
    intro o ho
    simp [Nat.ne_of_lt (hfresh o ho)]
  have hfind : ∀ (ch : List (Nat × String)),
      (st.orgs ++ [(⟨st.nextId, n, ch⟩ : OrgRec)]).find?
        (fun o => decide (o.gid = st.nextId)) = some ⟨st.nextId, n, ch⟩ := by
    intro ch
    rw [List.find?_append, hnone, List.find?_cons_of_pos _ (by simp)]
    rfl
  have hchild1 : kc_create_child
      (⟨st.orgs ++ [⟨st.nextId, n, []⟩], st.memberships, st.nextId + 1⟩ : KcState)
      st.nextId "admin" =
      .ok (st.nextId + 1,
        ⟨st.orgs ++ [⟨st.nextId, n, [(st.nextId + 1, "admin")]⟩],
         st.memberships, st.nextId + 2⟩) := by
    unfold kc_create_child
    simp only [hfind []]
    rw [if_neg (by simp)]
    rw [List.map_append, hmapid [(st.nextId + 1, "admin")]]
    simp
  have hchild2 : kc_create_child
      (⟨st.orgs ++ [⟨st.nextId, n, [(st.nextId + 1, "admin")]⟩], st.memberships,
        st.nextId + 2⟩ : KcState) st.nextId "user" =
      .ok (st.nextId + 2,
        ⟨st.orgs ++ [⟨st.nextId, n, [(st.nextId + 1, "admin"), (st.nextId + 2, "user")]⟩],
         st.memberships, st.nextId + 3⟩) := by
    unfold kc_create_child
    simp only [hfind [(st.nextId + 1, "admin")]]
    rw [if_neg (by simp)]
    rw [List.map_append, hmapid [(st.nextId + 2, "user")]]
    simp
  simp only [create_organization, hval, hroot, hchild1, hchild2]

/-- Claim C7: `create_organization` validates the name, creates the root and
then exactly the two children `admin` and `user` (binding the resolved
initial admin into the `admin` child when supplied); a second creation of an
existing name fails with the 409 `ConflictError` leaving the state — in
particular the first call's `/finance/admin` and `/finance/user` children —
untouched. -/
theorem C7_create_organization_spec :
    (∀ (st : KcState) (name : String) (au : Option String)
       (u : String → Option String) (n : String),
       validate_group_name_not_reserved name "Organization" = .ok n →
       (∃ o ∈ st.orgs, o.name = n) →
       create_organization st name au u =
         (st, .error ⟨409, "Organization already exists"⟩))
    ∧ (∀ (st : KcState) (name : String) (u : String → Option String) (n : String),
       validate_group_name_not_reserved name "Organization" = .ok n →
       (∀ o ∈ st.orgs, o.name ≠ n) →
       (∀ o ∈ st.orgs, o.gid < st.nextId) →
       create_organization st name none u =
         (⟨st.orgs ++ [⟨st.nextId, n,
             [(st.nextId + 1, "admin"), (st.nextId + 2, "user")]⟩],
           st.memberships, st.nextId + 3⟩,
          .ok ("Org " ++ n ++ " created (No admin assigned).")))
    ∧ create_organization st0 "finance" none userTableW =
        (stFinance, .ok "Org finance created (No admin assigned).")
    ∧ create_organization stFinance "finance" none userTableW =
        (stFinance, .error ⟨409, "Organization already exists"⟩)
    ∧ st_group_id_by_path stFinance "/finance/admin" = some 1
    ∧ st_group_id_by_path stFinance "/finance/user" = some 2
    ∧ (stFinance.orgs.map (fun o => o.children.map Prod.snd)) = [["admin", "user"]]
    ∧ create_organization st0 "ops" (some "Bob") userTableW =
        (stOps, .ok "Org ops created, user bob assigned as Admin.") := by
  refine ⟨create_organization_conflict, create_organization_success,
    by decide, by decide, by decide, by decide, by decide, by decide⟩

/-- Witness for C7 at concrete inputs. -/
theorem C7_create_organization_spec_witness :
    create_organization stFinance "finance" none userTableW =
      (stFinance, .error ⟨409, "Organization already exists"⟩)
    ∧ create_organization st0 "sales" none userTableW =
      (⟨st0.orgs ++ [⟨st0.nextId, "sales",
          [(st0.nextId + 1, "admin"), (st0.nextId + 2, "user")]⟩],
        st0.memberships, st0.nextId + 3⟩,
       .ok ("Org " ++ "sales" ++ " created (No admin assigned).")) :=
  ⟨C7_create_organization_spec.1 stFinance "finance" none userTableW "finance"
     (by decide) (by decide),
   C7_create_organization_spec.2.1 st0 "sales" userTableW "sales"
     (by decide) (by decide) (by decide)⟩

end NewKeycloak
